import Mathlib

/-!
# hidg: HID gadget device handle and its read pump

A shallow embedding of `hidg.go`.  The Go program has two execution contexts
per device: the caller (`Write`, `Close`, `ReadCh`, `ReadError`, channel
receives) and the goroutine `readThread`.  Both are embedded as atomic actions
on one shared state `Sys`; a run is a list of `Label`s, one per action, so every
interleaving of caller actions with the goroutine is a schedule.

What the operating system answers to a `read`/`write` call is not decided by the
program; it is carried by the label that performs the call.

Fields of `Sys` below the line "instrumentation" are counters and logs that are
only ever appended to or incremented; no action reads them.
-/

namespace Hidg

/-- An input or output report: the bytes of a `[]byte`. -/
abbrev Report := List Nat

/-- Non-nil values of Go's `error` that the device file can return. -/
inductive GoError where
  | eof
  | closed
  | errno (code : Nat)
  deriving DecidableEq, Repr

/-- What the device hands to one `read` call on an open file: the bytes that are
available, or an error. -/
inductive ReadOutcome where
  | data (bs : List Nat)
  | fail (e : GoError)
  deriving DecidableEq, Repr

/-! ## `*os.File` -/

/-- The device file `d.f`.  `written` logs the payload of every `Write` call and
`readCalls` counts the `Read` calls, in the order they were issued. -/
structure OsFile where
  closed : Bool
  written : List (List Nat)
  readCalls : Nat
  deriving DecidableEq, Repr

/-- `f.Read(buf)`: returns the file, the buffer after the call, `n` and `err`.
A closed file fails with `closed`; an open file copies at most `len(buf)` of the
available bytes to the front of `buf`. -/
def OsFile.Read (f : OsFile) (buf : List Nat) (o : ReadOutcome) :
    OsFile × List Nat × Nat × Option GoError :=
  let f1 := { f with readCalls := f.readCalls + 1 }
  if f.closed then (f1, buf, 0, some GoError.closed)
  else
    match o with
    | ReadOutcome.data bs =>
        let n := min bs.length buf.length
        (f1, bs.take n ++ buf.drop n, n, none)
    | ReadOutcome.fail e => (f1, buf, 0, some e)

/-- `f.Write(data)`: returns the file, `n` and `err`.  A closed file fails with
`closed`; on an open file the operating system answers `res`. -/
def OsFile.Write (f : OsFile) (data : List Nat) (res : Option GoError) :
    OsFile × Nat × Option GoError :=
  let f1 := { f with written := f.written ++ [data] }
  if f.closed then (f1, 0, some GoError.closed)
  else
    match res with
    | none => (f1, data.length, none)
    | some e => (f1, 0, some e)

/-- `f.Close()`. -/
def OsFile.Close (f : OsFile) : OsFile :=
  { f with closed := true }

/-! ## `chan []byte` -/

/-- A buffered channel.  `id` is the identity of the allocation, `buf` the
undelivered elements, oldest first. -/
structure Chan where
  id : Nat
  cap : Nat
  buf : List Report
  closed : Bool
  deriving DecidableEq, Repr

/-- `make(chan []byte, cap)`. -/
def Chan.make (id cap : Nat) : Chan :=
  { id := id, cap := cap, buf := [], closed := false }

/-- Result of `select { case c <- v: default: }`. -/
inductive SendResult where
  | sent (c : Chan)
  | notReady
  | panic
  deriving DecidableEq, Repr

/-- `select { case c <- v: default: }`: a send on a closed channel panics, a send
on a channel with room appends at the tail, otherwise the default case runs. -/
def Chan.trySend (c : Chan) (v : Report) : SendResult :=
  if c.closed then SendResult.panic
  else if c.buf.length < c.cap then SendResult.sent { c with buf := c.buf ++ [v] }
  else SendResult.notReady

/-- Result of `v, ok := <-c` at the moment it is attempted. -/
inductive RecvResult where
  | value (v : Report)
  | closed
  | blocked
  deriving DecidableEq, Repr

/-- `<-c`: the oldest undelivered element if there is one; on an empty channel
end-of-stream if it is closed and nothing (the receiver waits) if it is open. -/
def Chan.recv (c : Chan) : Chan × RecvResult :=
  match c.buf with
  | v :: rest => ({ c with buf := rest }, RecvResult.value v)
  | [] => if c.closed then (c, RecvResult.closed) else (c, RecvResult.blocked)

/-- `close(c)`: `none` is the panic on closing a closed channel. -/
def Chan.close (c : Chan) : Option Chan :=
  if c.closed then none else some { c with closed := true }

/-! ## `hidgDevice` -/

/-- The struct `hidgDevice`.  `readSetup` is the done flag of the `sync.Once`,
`readCh` is `none` while the field is nil. -/
structure HidgDevice where
  f : OsFile
  readSetup : Bool
  readErr : Option GoError
  readCh : Option Chan
  deriving DecidableEq, Repr

/-- Control point of the goroutine `readThread`. -/
inductive Pump where
  /-- no `go d.readThread()` has run -/
  | notStarted
  /-- top of the loop: about to `make` the buffer and call `d.f.Read(buf)` -/
  | reading
  /-- `Read` returned `err != nil`: about to execute `d.readErr = err` -/
  | failing (err : GoError)
  /-- `Read` returned `err == nil`: about to execute the `select` on `buf[:n]` -/
  | sending (r : Report)
  /-- `return` reached: about to run the deferred `close(d.readCh)` -/
  | closing
  /-- the goroutine has returned -/
  | done
  deriving DecidableEq, Repr

/-- The device together with its goroutine. -/
structure Sys where
  d : HidgDevice
  pump : Pump
  /-- a run-time panic has killed the process -/
  panicked : Bool
  -- instrumentation
  /-- number of `make(chan []byte, 64)` executed -/
  chansMade : Nat
  /-- number of `go d.readThread()` executed -/
  pumpsStarted : Nat
  /-- number of `close(d.readCh)` executed -/
  closes : Nat
  /-- `buf[:n]` of every `Read` that returned `err == nil`, in read order -/
  readLog : List Report
  /-- `err` of every `Read` that returned `err != nil` -/
  readFails : List GoError
  /-- every report a consumer received from `d.readCh`, in receive order -/
  recvLog : List Report
  deriving DecidableEq, Repr

/-- `Open(path)` where `os.OpenFile` answers `res`. -/
def Open (res : Option GoError) : Option HidgDevice × Option GoError :=
  match res with
  | some err => (none, some err)
  | none =>
      (some { f := { closed := false, written := [], readCalls := 0 },
              readSetup := false, readErr := none, readCh := none }, none)

/-- The state right after a successful `Open`. -/
def init : Sys :=
  { d := { f := { closed := false, written := [], readCalls := 0 },
           readSetup := false, readErr := none, readCh := none },
    pump := Pump.notStarted, panicked := false,
    chansMade := 0, pumpsStarted := 0, closes := 0,
    readLog := [], readFails := [], recvLog := [] }

/-- `d.Close()`. -/
def Close (s : Sys) : Sys :=
  { s with d := { s.d with f := s.d.f.Close } }

/-- `d.Write(data)`: the state afterwards and the returned `error`. -/
def Write (data : List Nat) (res : Option GoError) (s : Sys) : Sys × Option GoError :=
  match s.d.f.Write data res with
  | (f1, _, err) => ({ s with d := { s.d with f := f1 } }, err)

/-- The closure passed to `d.readSetup.Do` in `ReadCh`. -/
def readSetupBody (s : Sys) : Sys :=
  { s with
    d := { s.d with readCh := some (Chan.make s.chansMade 64) },
    chansMade := s.chansMade + 1,
    pump := Pump.reading,
    pumpsStarted := s.pumpsStarted + 1 }

/-- `d.readSetup.Do(body)`. -/
def readSetupDo (body : Sys → Sys) (s : Sys) : Sys :=
  if s.d.readSetup then s
  else
    let s1 := body s
    { s1 with d := { s1.d with readSetup := true } }

/-- `d.ReadCh()`: the state afterwards and the returned channel (its identity,
`none` for nil). -/
def ReadCh (s : Sys) : Sys × Option Nat :=
  let s1 := readSetupDo readSetupBody s
  (s1, s1.d.readCh.map Chan.id)

/-- `d.ReadError()`. -/
def ReadError (s : Sys) : Option GoError :=
  s.d.readErr

/-- One atomic action of `readThread`; `o` is what the device hands to the
`Read` call if this action is one. -/
def readThreadStep (o : ReadOutcome) (s : Sys) : Sys :=
  match s.pump with
  | Pump.notStarted => s
  | Pump.done => s
  | Pump.reading =>
      let buf := List.replicate 64 0
      match s.d.f.Read buf o with
      | (f1, _, _, some err) =>
          { s with d := { s.d with f := f1 }, pump := Pump.failing err,
                   readFails := s.readFails ++ [err] }
      | (f1, buf1, n, none) =>
          { s with d := { s.d with f := f1 }, pump := Pump.sending (buf1.take n),
                   readLog := s.readLog ++ [buf1.take n] }
  | Pump.failing err =>
      { s with d := { s.d with readErr := some err }, pump := Pump.closing }
  | Pump.sending r =>
      match s.d.readCh with
      | none => { s with pump := Pump.reading }
      | some c =>
          match c.trySend r with
          | SendResult.sent c1 =>
              { s with d := { s.d with readCh := some c1 }, pump := Pump.reading }
          | SendResult.notReady => { s with pump := Pump.reading }
          | SendResult.panic => { s with panicked := true, pump := Pump.done }
  | Pump.closing =>
      match s.d.readCh with
      | none => { s with panicked := true, pump := Pump.done }
      | some c =>
          match c.close with
          | none => { s with panicked := true, pump := Pump.done }
          | some c1 =>
              { s with d := { s.d with readCh := some c1 }, pump := Pump.done,
                       closes := s.closes + 1 }

/-- A consumer executes `<-ch` on the channel `ReadCh` returned. -/
def consumerRecv (s : Sys) : Sys × RecvResult :=
  match s.d.readCh with
  | none => (s, RecvResult.blocked)
  | some c =>
      match c.recv with
      | (c1, RecvResult.value v) =>
          ({ s with d := { s.d with readCh := some c1 }, recvLog := s.recvLog ++ [v] },
           RecvResult.value v)
      | (_, res) => (s, res)

/-- One atomic action of a run. -/
inductive Label where
  | readCh
  | write (data : List Nat) (res : Option GoError)
  | close
  | readError
  | recv
  | pump (o : ReadOutcome)
  deriving DecidableEq, Repr

/-- Effect of one action; nothing runs once the process has panicked. -/
def step (l : Label) (s : Sys) : Sys :=
  if s.panicked then s
  else
    match l with
    | Label.readCh => (ReadCh s).1
    | Label.write data res => (Write data res s).1
    | Label.close => Close s
    | Label.readError => s
    | Label.recv => (consumerRecv s).1
    | Label.pump o => readThreadStep o s

/-- The state after a schedule. -/
def run (sched : List Label) (s : Sys) : Sys :=
  sched.foldl (fun acc l => step l acc) s

/-! ## Derived observations -/

/-- The undelivered reports held by the queue, oldest first. -/
def Sys.queue (s : Sys) : List Report :=
  match s.d.readCh with
  | none => []
  | some c => c.buf

/-- The report the goroutine holds between a successful `Read` and its `select`. -/
def Pump.pending : Pump → List Report
  | Pump.sending r => [r]
  | _ => []

/-- The label is an action of the goroutine. -/
def Label.isPump : Label → Bool
  | Label.pump _ => true
  | _ => false

/-- Number of goroutine actions in a schedule. -/
def pumpSteps (sched : List Label) : Nat :=
  sched.countP Label.isPump

/-! ## The invariant of reachable states -/

/-- Facts that hold from the first `ReadCh` on; `cl` tells whether the goroutine
has closed the channel. -/
def Started (s : Sys) (cl : Bool) : Prop :=
  s.d.readSetup = true ∧ s.chansMade = 1 ∧ s.pumpsStarted = 1 ∧
  s.closes = (if cl then 1 else 0) ∧
  ∃ c, s.d.readCh = some c ∧ c.id = 0 ∧ c.cap = 64 ∧ c.buf.length ≤ 64 ∧ c.closed = cl

/-- Invariant of the states reachable from `init`. -/
def Inv (s : Sys) : Prop :=
  s.panicked = false ∧
  s.d.f.readCalls = s.readLog.length + s.readFails.length ∧
  match s.pump with
  | Pump.notStarted =>
      s.d.readSetup = false ∧ s.d.readCh = none ∧ s.d.readErr = none ∧ s.chansMade = 0 ∧
      s.pumpsStarted = 0 ∧ s.closes = 0 ∧ s.readFails = [] ∧ s.readLog = [] ∧ s.recvLog = []
  | Pump.reading => Started s false ∧ s.d.readErr = none ∧ s.readFails = []
  | Pump.sending _ => Started s false ∧ s.d.readErr = none ∧ s.readFails = []
  | Pump.failing e => Started s false ∧ s.d.readErr = none ∧ s.readFails = [e]
  | Pump.closing => Started s false ∧ ∃ e, s.d.readErr = some e ∧ s.readFails = [e]
  | Pump.done => Started s true ∧ ∃ e, s.d.readErr = some e ∧ s.readFails = [e]

/-! ## Further predicates and schedules used in the statements -/

/-- Received, queued and pending reports, in this order, form a subsequence of
the reports read. -/
def Sub (s : Sys) : Prop :=
  (s.recvLog ++ s.queue ++ s.pump.pending).Sublist s.readLog

/-- A `Read` of the goroutine has failed: it is past the loop for good. -/
def Pump.stopped : Pump → Bool
  | Pump.failing _ => true
  | Pump.closing => true
  | Pump.done => true
  | _ => false

/-- Number of actions the goroutine still takes before it has returned, when
its next `Read` fails. -/
def Pump.rank : Pump → Nat
  | Pump.notStarted => 0
  | Pump.sending _ => 4
  | Pump.reading => 3
  | Pump.failing _ => 2
  | Pump.closing => 1
  | Pump.done => 0

/-- What no action changes once a `Read` has failed. -/
def Frozen (s t : Sys) : Prop :=
  t.pump.stopped = true ∧ t.d.f.readCalls = s.d.f.readCalls ∧ t.readLog = s.readLog ∧
  t.readFails = s.readFails ∧ t.recvLog ++ t.queue = s.recvLog ++ s.queue ∧
  t.pumpsStarted = s.pumpsStarted ∧ t.chansMade = s.chansMade

/-- The goroutine exists and its next `Read`, if it issues one, fails. -/
def Doomed (s : Sys) : Prop :=
  s.pump ≠ Pump.notStarted ∧ (s.d.f.closed = true ∨ s.pump.stopped = true)

/-- A schedule that starts the pump and lets it read and enqueue `k` reports
`[0], [1], ...` with no consumer receiving. -/
def fillSched : Nat → List Label
  | 0 => [Label.readCh]
  | k + 1 => fillSched k ++ [Label.pump (ReadOutcome.data [k]), Label.pump (ReadOutcome.data [])]

/-- The pump fills the queue with 64 reports and reads `[64]`; a consumer
receives `[0]` before the pump reaches its `select`. -/
def raceSched : List Label :=
  fillSched 64 ++
    [Label.pump (ReadOutcome.data [64]), Label.recv, Label.pump (ReadOutcome.data [])]

/-- Two reports are read and received, then a read fails with end-of-file, the
pump closes the queue and returns. -/
def drainSched : List Label :=
  [Label.readCh, Label.pump (ReadOutcome.data [1]), Label.pump (ReadOutcome.data []),
    Label.pump (ReadOutcome.data [2]), Label.recv, Label.pump (ReadOutcome.data []),
    Label.pump (ReadOutcome.fail GoError.eof), Label.pump (ReadOutcome.data []),
    Label.recv, Label.pump (ReadOutcome.data [])]

/-- The queue after `fillSched 64`: the reports `[0]`, ..., `[63]`, still open. -/
def fullChan : Chan :=
  { id := 0, cap := 64, buf := (List.range 64).map (fun k => [k]), closed := false }

/-- Modelled from the spec: the loopback-style test device of the scenario in
section 8, which is not part of the source.  It keeps the reports written to it;
a `Read` of the pump hands back the oldest report not yet read back, and waits
while there is none.  The second component is the list of reports written and
not yet read back. -/
def loopbackRun : List Label → Sys × List (List Nat) → Sys × List (List Nat)
  | [], st => st
  | Label.write data _ :: ls, (s, q) =>
      loopbackRun ls
        (step (Label.write data none) s, if s.d.f.closed then q else q ++ [data])
  | Label.pump _ :: ls, (s, q) =>
      if s.pump = Pump.reading ∧ s.d.f.closed = false then
        match q with
        | [] => loopbackRun ls (s, q)
        | w :: q1 => loopbackRun ls (step (Label.pump (ReadOutcome.data w)) s, q1)
      else loopbackRun ls (step (Label.pump (ReadOutcome.data [])) s, q)
  | l :: ls, (s, q) => loopbackRun ls (step l s, q)

/-- The device file is closed and the goroutine, which had issued `n` reads when
it was still in its loop, has issued at most one more, which failed with the
closed-file error. -/
def AfterClose (n : Nat) (t : Sys) : Prop :=
  t.d.f.closed = true ∧
  match t.pump with
  | Pump.notStarted => False
  | Pump.reading => t.d.f.readCalls = n
  | Pump.sending _ => t.d.f.readCalls = n
  | Pump.failing e => e = GoError.closed ∧ t.d.f.readCalls = n + 1
  | Pump.closing => t.readFails = [GoError.closed] ∧ t.d.f.readCalls = n + 1
  | Pump.done => t.readFails = [GoError.closed] ∧ t.d.f.readCalls = n + 1

/-- The pump is not about to enqueue into a queue that already holds 64
reports. -/
def hasRoom (s : Sys) : Bool :=
  match s.pump, s.d.readCh with
  | Pump.sending _, some c => decide (c.buf.length < 64)
  | _, _ => true

/-- The action at position `k` of the schedule is an action of the pump. -/
def pumpAt (sched : List Label) (k : Nat) : Bool :=
  match sched[k]? with
  | some l => l.isPump
  | none => false

/-- Nothing was dropped: received, queued and pending reports are all the
reports read, in read order. -/
def Lossless (s : Sys) : Prop :=
  s.recvLog ++ s.queue ++ s.pump.pending = s.readLog

set_option maxRecDepth 100000

/-! ## Basic facts about runs -/

theorem run_nil (s : Sys) : run [] s = s := rfl

theorem run_cons (l : Label) (ls : List Label) (s : Sys) :
    run (l :: ls) s = run ls (step l s) := rfl

theorem run_append (p q : List Label) (s : Sys) :
    run (p ++ q) s = run q (run p s) := by
  simp [run, List.foldl_append]

theorem Inv_init : Inv init := by
  simp [Inv, init]

/-- The report the goroutine takes out of its 64-byte buffer after a successful
read of the available bytes `bs`. -/
theorem read_report (bs : List Nat) :
    (bs.take (min bs.length (List.replicate 64 0).length) ++
      (List.replicate 64 0).drop (min bs.length (List.replicate 64 0).length)).take
        (min bs.length (List.replicate 64 0).length) = bs.take 64 := by
  have h64 : (List.replicate 64 (0 : Nat)).length = 64 := List.length_replicate 64 0
  rw [h64]
  have hlen : (bs.take (min bs.length 64)).length = min bs.length 64 := by
    rw [List.length_take]; omega
  rw [List.take_append_of_le_length (by omega), List.take_take]
  rcases Nat.le_total bs.length 64 with h | h
  · rw [Nat.min_self, Nat.min_eq_left h, List.take_of_length_le (le_refl _),
      List.take_of_length_le h]
  · rw [Nat.min_self, Nat.min_eq_right h]

theorem readThreadStep_reading (o : ReadOutcome) (s : Sys) (h : s.pump = Pump.reading) :
    readThreadStep o s =
      if s.d.f.closed then
        { s with d := { s.d with f := { s.d.f with readCalls := s.d.f.readCalls + 1 } },
                 pump := Pump.failing GoError.closed,
                 readFails := s.readFails ++ [GoError.closed] }
      else
        match o with
        | ReadOutcome.data bs =>
            { s with d := { s.d with f := { s.d.f with readCalls := s.d.f.readCalls + 1 } },
                     pump := Pump.sending (bs.take 64),
                     readLog := s.readLog ++ [bs.take 64] }
        | ReadOutcome.fail e =>
            { s with d := { s.d with f := { s.d.f with readCalls := s.d.f.readCalls + 1 } },
                     pump := Pump.failing e,
                     readFails := s.readFails ++ [e] } := by
  unfold readThreadStep
  rw [h]
  simp only [OsFile.Read]
  by_cases hc : s.d.f.closed = true
  · simp [hc]
  · cases o with
    | data bs => simp only [hc, if_false, Bool.false_eq_true]; rw [read_report]
    | fail e => simp [hc]

theorem Inv_step (l : Label) (s : Sys) (h : Inv s) : Inv (step l s) := by
  obtain ⟨⟨⟨fc, fw, fr⟩, rs, re, rc⟩, pump, pan, cm, ps, cl, rl, rf, rv⟩ := s
  obtain ⟨hp, hr, hm⟩ := h
  simp only at hp hr
  subst hp
  cases l with
  | readCh =>
      cases pump <;>
        simp_all [Inv, Started, step, ReadCh, readSetupDo, readSetupBody, Chan.make]
  | write data res =>
      cases pump <;> cases fc <;> cases res <;>
        simp_all [Inv, Started, step, Write, OsFile.Write]
  | close =>
      cases pump <;> simp_all [Inv, Started, step, Close, OsFile.Close]
  | readError => simpa [Inv, step] using ⟨hr, hm⟩
  | recv =>
      cases rc with
      | none => cases pump <;> simp_all [Inv, Started, step, consumerRecv]
      | some c =>
          obtain ⟨ci, cc, cb, cd⟩ := c
          cases cb <;> cases cd <;> cases pump <;>
            simp_all [Inv, Started, step, consumerRecv, Chan.recv] <;> omega
  | pump o =>
      cases pump with
      | notStarted => simpa [Inv, step, readThreadStep] using ⟨hr, hm⟩
      | done => simpa [Inv, step, readThreadStep] using ⟨hr, hm⟩
      | reading =>
          simp only [step, Bool.false_eq_true, if_false]
          rw [readThreadStep_reading _ _ rfl]
          cases fc <;> cases o <;> simp_all [Inv, Started]
      | failing e =>
          simp_all [Inv, Started, step, readThreadStep]
      | sending r =>
          cases rc with
          | none => simp_all [Inv, Started, step, readThreadStep]
          | some c =>
              obtain ⟨ci, cc, cb, cd⟩ := c
              cases cd <;> by_cases hlt : cb.length < cc <;>
                simp only [step, readThreadStep, Chan.trySend, hlt, if_true, if_false,
                  Bool.false_eq_true] <;>
                simp_all [Inv, Started]
              omega
      | closing =>
          cases rc with
          | none => simp_all [Inv, Started, step, readThreadStep]
          | some c =>
              obtain ⟨ci, cc, cb, cd⟩ := c
              cases cd <;> simp_all [Inv, Started, step, readThreadStep, Chan.close]

theorem Inv_run (sched : List Label) (s : Sys) (h : Inv s) : Inv (run sched s) := by
  induction sched generalizing s with
  | nil => exact h
  | cons l ls ih => exact ih _ (Inv_step l s h)

theorem Inv_reach (sched : List Label) : Inv (run sched init) :=
  Inv_run sched init Inv_init

/-! ## Delivered reports are a subsequence of the reports read -/

theorem Sub_step (l : Label) (s : Sys) (hi : Inv s) (h : Sub s) : Sub (step l s) := by
  obtain ⟨⟨⟨fc, fw, fr⟩, rs, re, rc⟩, pump, pan, cm, ps, cl, rl, rf, rv⟩ := s
  obtain ⟨hp, hr, hm⟩ := hi
  simp only at hp hr
  subst hp
  cases l with
  | readCh =>
      cases pump <;>
        simp_all [Sub, Sys.queue, Pump.pending, Inv, Started, step, ReadCh, readSetupDo,
          readSetupBody, Chan.make]
  | write data res =>
      cases fc <;> cases res <;> simpa [Sub, Sys.queue, step, Write, OsFile.Write] using h
  | close => simpa [Sub, Sys.queue, step, Close, OsFile.Close] using h
  | readError => simpa [Sub, step] using h
  | recv =>
      cases rc with
      | none => simpa [Sub, Sys.queue, step, consumerRecv] using h
      | some c =>
          obtain ⟨ci, cc, cb, cd⟩ := c
          cases cb <;> cases cd <;>
            simpa [Sub, Sys.queue, step, consumerRecv, Chan.recv] using h
  | pump o =>
      cases pump with
      | notStarted => simpa [Sub, step, readThreadStep] using h
      | done => simpa [Sub, step, readThreadStep] using h
      | reading =>
          simp only [step, Bool.false_eq_true, if_false]
          rw [readThreadStep_reading _ _ rfl]
          cases fc <;> cases o <;> simp_all [Sub, Sys.queue, Pump.pending]
          rw [← List.append_assoc]
          exact h.append (List.Sublist.refl _)
      | failing e =>
          simpa [Sub, Sys.queue, Pump.pending, step, readThreadStep] using h
      | sending r =>
          cases rc with
          | none => simp_all [Inv, Started, step, readThreadStep]
          | some c =>
              obtain ⟨ci, cc, cb, cd⟩ := c
              cases cd <;> by_cases hlt : cb.length < cc <;>
                simp only [step, readThreadStep, Chan.trySend, hlt, if_true, if_false,
                  Bool.false_eq_true] <;>
                simp_all [Sub, Sys.queue, Pump.pending, Inv, Started]
              have hsub : (rv ++ cb).Sublist (rv ++ (cb ++ [r])) := by
                rw [← List.append_assoc]
                exact List.sublist_append_left _ _
              exact hsub.trans h
      | closing =>
          cases rc with
          | none => simp_all [Inv, Started, step, readThreadStep]
          | some c =>
              obtain ⟨ci, cc, cb, cd⟩ := c
              cases cd <;> simp_all [Sub, Sys.queue, Pump.pending, Inv, Started, step,
                readThreadStep, Chan.close]

theorem Sub_run (sched : List Label) (s : Sys) (hi : Inv s) (h : Sub s) :
    Sub (run sched s) := by
  induction sched generalizing s with
  | nil => exact h
  | cons l ls ih => exact ih _ (Inv_step l s hi) (Sub_step l s hi h)

theorem Sub_reach (sched : List Label) : Sub (run sched init) :=
  Sub_run sched init Inv_init (by simp [Sub, init, Sys.queue, Pump.pending])

/-! ## After a failed read -/

theorem Frozen_step (l : Label) (s : Sys) (hi : Inv s) (h : s.pump.stopped = true) :
    Frozen s (step l s) := by
  obtain ⟨⟨⟨fc, fw, fr⟩, rs, re, rc⟩, pump, pan, cm, ps, cl, rl, rf, rv⟩ := s
  obtain ⟨hp, hr, hm⟩ := hi
  simp only at hp hr
  subst hp
  cases l with
  | readCh =>
      cases pump <;>
        simp_all [Frozen, Pump.stopped, Inv, Started, step, ReadCh, readSetupDo, readSetupBody]
  | write data res =>
      cases fc <;> cases res <;> simpa [Frozen, Sys.queue, step, Write, OsFile.Write] using h
  | close => simpa [Frozen, Sys.queue, step, Close, OsFile.Close] using h
  | readError => simpa [Frozen, step] using h
  | recv =>
      cases rc with
      | none => simpa [Frozen, Sys.queue, step, consumerRecv] using h
      | some c =>
          obtain ⟨ci, cc, cb, cd⟩ := c
          cases cb <;> cases cd <;>
            simpa [Frozen, Sys.queue, step, consumerRecv, Chan.recv] using h
  | pump o =>
      cases pump with
      | notStarted => simp [Pump.stopped] at h
      | reading => simp [Pump.stopped] at h
      | sending r => simp [Pump.stopped] at h
      | done => simp [Frozen, Pump.stopped, step, readThreadStep]
      | failing e => simp [Frozen, Sys.queue, Pump.stopped, step, readThreadStep]
      | closing =>
          cases rc with
          | none => simp_all [Inv, Started, step, readThreadStep]
          | some c =>
              obtain ⟨ci, cc, cb, cd⟩ := c
              cases cd <;> simp_all [Frozen, Sys.queue, Pump.stopped, Inv, Started, step,
                readThreadStep, Chan.close]

theorem Frozen_run (rest : List Label) (s : Sys) (hi : Inv s) (h : s.pump.stopped = true) :
    Frozen s (run rest s) := by
  induction rest generalizing s with
  | nil => simp [run, Frozen, h]
  | cons l ls ih =>
      have h1 := Frozen_step l s hi h
      have h2 := ih (step l s) (Inv_step l s hi) h1.1
      rw [run_cons]
      obtain ⟨a1, a2, a3, a4, a5, a6, a7⟩ := h1
      obtain ⟨b1, b2, b3, b4, b5, b6, b7⟩ := h2
      exact ⟨b1, b2.trans a2, b3.trans a3, b4.trans a4, b5.trans a5, b6.trans a6, b7.trans a7⟩

theorem Doomed_step (l : Label) (s : Sys) (hi : Inv s) (h : Doomed s) :
    Doomed (step l s) ∧
    (step l s).pump.rank = s.pump.rank - (if l.isPump then 1 else 0) := by
  obtain ⟨⟨⟨fc, fw, fr⟩, rs, re, rc⟩, pump, pan, cm, ps, cl, rl, rf, rv⟩ := s
  obtain ⟨hp, hr, hm⟩ := hi
  simp only at hp hr
  subst hp
  cases l with
  | readCh =>
      cases pump <;>
        simp_all [Doomed, Pump.stopped, Pump.rank, Label.isPump, Inv, Started, step, ReadCh,
          readSetupDo, readSetupBody]
  | write data res =>
      cases fc <;> cases res <;>
        simpa [Doomed, Label.isPump, step, Write, OsFile.Write] using h
  | close =>
      obtain ⟨h1, _⟩ := h
      simpa [Doomed, Label.isPump, step, Close, OsFile.Close] using h1
  | readError => simpa [Doomed, Label.isPump, step] using h
  | recv =>
      cases rc with
      | none => simpa [Doomed, Label.isPump, step, consumerRecv] using h
      | some c =>
          obtain ⟨ci, cc, cb, cd⟩ := c
          cases cb <;> cases cd <;>
            simpa [Doomed, Label.isPump, step, consumerRecv, Chan.recv] using h
  | pump o =>
      cases pump with
      | notStarted => simp [Doomed] at h
      | done => simp [Doomed, Pump.stopped, Pump.rank, step, readThreadStep]
      | reading =>
          simp only [step, Bool.false_eq_true, if_false]
          rw [readThreadStep_reading _ _ rfl]
          cases fc <;> cases o <;>
            simp_all [Doomed, Pump.stopped, Pump.rank, Label.isPump]
      | failing e =>
          simp [Doomed, Pump.stopped, Pump.rank, Label.isPump, step, readThreadStep]
      | sending r =>
          cases rc with
          | none => simp_all [Inv, Started, step, readThreadStep]
          | some c =>
              obtain ⟨ci, cc, cb, cd⟩ := c
              cases cd <;> by_cases hlt : cb.length < cc <;>
                simp only [step, readThreadStep, Chan.trySend, hlt, if_true, if_false,
                  Bool.false_eq_true] <;>
                simp_all [Doomed, Pump.stopped, Pump.rank, Label.isPump, Inv, Started]
      | closing =>
          cases rc with
          | none => simp_all [Inv, Started, step, readThreadStep]
          | some c =>
              obtain ⟨ci, cc, cb, cd⟩ := c
              cases cd <;> simp_all [Doomed, Pump.stopped, Pump.rank, Label.isPump, Inv,
                Started, step, readThreadStep, Chan.close]

theorem Doomed_run (rest : List Label) (s : Sys) (hi : Inv s) (h : Doomed s) :
    Doomed (run rest s) ∧ (run rest s).pump.rank = s.pump.rank - pumpSteps rest := by
  induction rest generalizing s with
  | nil => simp [run, pumpSteps, h]
  | cons l ls ih =>
      obtain ⟨h1, h2⟩ := Doomed_step l s hi h
      obtain ⟨h3, h4⟩ := ih (step l s) (Inv_step l s hi) h1
      rw [run_cons]
      refine ⟨h3, ?_⟩
      rw [h4, h2]
      cases hl : l.isPump <;> simp [pumpSteps, List.countP_cons, hl]
      omega

theorem rank_zero_done (p : Pump) (h0 : p ≠ Pump.notStarted) (h : p.rank = 0) :
    p = Pump.done := by
  cases p <;> simp_all [Pump.rank]

/-- Shape of a reachable state in which the goroutine has returned. -/
theorem Inv_done (s : Sys) (hi : Inv s) (h : s.pump = Pump.done) :
    s.closes = 1 ∧ ∃ e c, s.readFails = [e] ∧ s.d.readErr = some e ∧
      s.d.readCh = some c ∧ c.closed = true := by
  obtain ⟨_, _, hm⟩ := hi
  rw [h] at hm
  obtain ⟨⟨_, _, _, hcl, c, hc, _, _, _, hcd⟩, e, he, hf⟩ := hm
  exact ⟨by simpa using hcl, e, c, hf, he, hc, hcd⟩

/-- In a reachable state a failed read and a stopped goroutine are the same thing. -/
theorem Inv_stopped (s : Sys) (hi : Inv s) : s.pump.stopped = true ↔ s.readFails ≠ [] := by
  obtain ⟨_, _, hm⟩ := hi
  cases hp : s.pump <;> rw [hp] at hm <;> simp [Pump.stopped]
  · exact hm.2.2.2.2.2.2.1
  · exact hm.2.2
  · rw [hm.2.2]; simp
  · exact hm.2.2
  · obtain ⟨_, e, _, hf⟩ := hm; rw [hf]; simp
  · obtain ⟨_, e, _, hf⟩ := hm; rw [hf]; simp

/-- In a reachable state the channel has been closed at most once, and only by a
goroutine that has returned. -/
theorem Inv_closes (s : Sys) (hi : Inv s) :
    s.closes ≤ 1 ∧ (s.pump ≠ Pump.done →
      s.closes = 0 ∧ ∀ c, s.d.readCh = some c → c.closed = false) := by
  obtain ⟨_, _, hm⟩ := hi
  cases hp : s.pump <;> rw [hp] at hm <;> simp
  · exact ⟨by omega, hm.2.2.2.2.2.1, by simp [hm.2.1]⟩
  all_goals
    first
    | (obtain ⟨⟨_, _, _, hcl, c, hc, _, _, _, hcd⟩, _⟩ := hm
       simp at hcl
       refine ⟨by omega, hcl, ?_⟩
       intro c1 hc1
       rw [hc] at hc1
       cases hc1
       exact hcd)
    | (obtain ⟨⟨_, _, _, hcl, _⟩, _⟩ := hm
       simp at hcl
       omega)

/-! ## The claims -/

/-- C1: in every run, whatever the interleaving of consumer receives with the
actions of the read pump, the reports the consumers have received form a
subsequence (same order, nothing duplicated or invented) of the reports the
device reads returned successfully, so there are at most as many of them; every
device read is either one of these successful reads or the single failing one. -/
theorem C1_received_is_subsequence_of_read (sched : List Label) :
    (run sched init).recvLog.Sublist (run sched init).readLog ∧
    (run sched init).recvLog.length ≤ (run sched init).readLog.length ∧
    (run sched init).d.f.readCalls =
      (run sched init).readLog.length + (run sched init).readFails.length ∧
    (run sched init).readFails.length ≤ 1 := by
  have hs := Sub_reach sched
  have hi := Inv_reach sched
  have h1 : (run sched init).recvLog.Sublist (run sched init).readLog := by
    unfold Sub at hs
    rw [List.append_assoc] at hs
    exact (List.sublist_append_left _ _).trans hs
  refine ⟨h1, h1.length_le, hi.2.1, ?_⟩
  obtain ⟨_, _, hm⟩ := hi
  cases hp : (run sched init).pump <;> rw [hp] at hm
  · rw [hm.2.2.2.2.2.2.1]; simp
  · rw [hm.2.2]; simp
  · rw [hm.2.2]; simp
  · rw [hm.2.2]; simp
  · obtain ⟨_, e, _, hf⟩ := hm; rw [hf]; simp
  · obtain ⟨_, e, _, hf⟩ := hm; rw [hf]; simp

/-- C2: the pump is one-way.  While no read has failed the queue is not closed;
the queue is closed at most once and closing never panics; once a read has
failed, in every continuation (more device data, more `ReadCh` calls, anything)
the pump stays past its loop, no further device read is issued, no report is
read or enqueued, no second pump is started, and as soon as the pump has taken
two more actions it has recorded the error, closed the queue exactly once and
returned. -/
theorem C2_pump_is_one_way (sched rest : List Label) :
    ((run sched init).readFails = [] →
      (run sched init).closes = 0 ∧
      ∀ c, (run sched init).d.readCh = some c → c.closed = false) ∧
    ((run sched init).closes ≤ 1 ∧ (run sched init).panicked = false) ∧
    ((run sched init).readFails ≠ [] →
      (run rest (run sched init)).pump.stopped = true ∧
      (run rest (run sched init)).d.f.readCalls = (run sched init).d.f.readCalls ∧
      (run rest (run sched init)).readLog = (run sched init).readLog ∧
      (run rest (run sched init)).recvLog ++ (run rest (run sched init)).queue =
        (run sched init).recvLog ++ (run sched init).queue ∧
      (run rest (run sched init)).pumpsStarted = 1 ∧
      (run rest (run sched init)).closes ≤ 1 ∧
      (run rest (run sched init)).panicked = false ∧
      (2 ≤ pumpSteps rest →
        (run rest (run sched init)).pump = Pump.done ∧
        (run rest (run sched init)).closes = 1 ∧
        ∃ e c, (run sched init).readFails = [e] ∧
          (run rest (run sched init)).d.readErr = some e ∧
          (run rest (run sched init)).d.readCh = some c ∧ c.closed = true)) := by
  have hi := Inv_reach sched
  have hi2 : Inv (run rest (run sched init)) := Inv_run rest _ hi
  refine ⟨?_, ⟨(Inv_closes _ hi).1, hi.1⟩, ?_⟩
  · intro hf
    apply (Inv_closes _ hi).2
    intro hd
    have := (Inv_stopped _ hi).1 (by rw [hd]; rfl)
    exact this hf
  · intro hf
    have hst := (Inv_stopped _ hi).2 hf
    obtain ⟨f1, f2, f3, f4, f5, f6, f7⟩ := Frozen_run rest _ hi hst
    have hns : (run sched init).pump ≠ Pump.notStarted := by
      intro h0; rw [h0] at hst; simp [Pump.stopped] at hst
    have hps : (run sched init).pumpsStarted = 1 := by
      obtain ⟨_, _, hm⟩ := hi
      cases hp : (run sched init).pump <;> rw [hp] at hm
      · exact absurd hp hns
      all_goals exact hm.1.2.2.1
    refine ⟨f1, f2, f3, f5, f6.trans hps, (Inv_closes _ hi2).1, hi2.1, ?_⟩
    intro h2
    obtain ⟨hd, hr⟩ := Doomed_run rest _ hi ⟨hns, Or.inr hst⟩
    have hle : (run sched init).pump.rank ≤ 2 := by
      cases hp : (run sched init).pump <;> rw [hp] at hst <;> simp_all [Pump.stopped, Pump.rank]
    have hdone := rank_zero_done _ hd.1 (by omega)
    obtain ⟨hc, e, c, he1, he2, he3, he4⟩ := Inv_done _ hi2 hdone
    exact ⟨hdone, hc, e, c, f4 ▸ he1, he2, he3, he4⟩

/-- A run in which the first read fails with end-of-file, continued by two pump
actions mixed with other calls. -/
theorem C2_pump_is_one_way_witness :
    (run [Label.readCh, Label.pump (ReadOutcome.fail GoError.eof)] init).readFails ≠ [] ∧
    2 ≤ pumpSteps [Label.readCh, Label.pump (ReadOutcome.data [7]), Label.recv,
      Label.pump (ReadOutcome.data [8]), Label.pump (ReadOutcome.data [9])] ∧
    (run [Label.readCh, Label.pump (ReadOutcome.data [7]), Label.recv,
        Label.pump (ReadOutcome.data [8]), Label.pump (ReadOutcome.data [9])]
      (run [Label.readCh, Label.pump (ReadOutcome.fail GoError.eof)] init)).pump = Pump.done :=
  ⟨by decide, by decide,
    (((C2_pump_is_one_way [Label.readCh, Label.pump (ReadOutcome.fail GoError.eof)]
      [Label.readCh, Label.pump (ReadOutcome.data [7]), Label.recv,
        Label.pump (ReadOutcome.data [8]), Label.pump (ReadOutcome.data [9])]).2.2
      (by decide)).2.2.2.2.2.2.2 (by decide)).1⟩

/-- C3: whenever the queue returned by `ReadCh` is closed, exactly one device
read has failed, `ReadError` returns exactly the error that read returned, and
it returns the same value after every continuation of the run. -/
theorem C3_read_error_is_terminating_error (sched rest : List Label) (c : Chan)
    (hc : (run sched init).d.readCh = some c) (hcl : c.closed = true) :
    ∃ e, (run sched init).readFails = [e] ∧
      ReadError (run sched init) = some e ∧
      ReadError (run rest (run sched init)) = some e := by
  have hi := Inv_reach sched
  have hi2 : Inv (run rest (run sched init)) := Inv_run rest _ hi
  have hd : (run sched init).pump = Pump.done := by
    by_contra hne
    have := ((Inv_closes _ hi).2 hne).2 c hc
    rw [hcl] at this
    cases this
  obtain ⟨_, e, _, he1, he2, _, _⟩ := Inv_done _ hi hd
  have hst : (run sched init).pump.stopped = true := by rw [hd]; rfl
  have hns : (run sched init).pump ≠ Pump.notStarted := by rw [hd]; simp
  obtain ⟨hdm, hr⟩ := Doomed_run rest _ hi ⟨hns, Or.inr hst⟩
  have hd2 := rank_zero_done _ hdm.1 (by rw [hr, hd]; simp [Pump.rank])
  obtain ⟨_, e2, _, he3, he4, _, _⟩ := Inv_done _ hi2 hd2
  have hfz := (Frozen_run rest _ hi hst).2.2.2.1
  rw [he1, he3] at hfz
  simp at hfz
  subst hfz
  exact ⟨e2, he1, he2, he4⟩

/-- The first read returns end-of-file; after the queue is closed `ReadError`
reports it, also after further calls. -/
theorem C3_read_error_is_terminating_error_witness :
    (run [Label.readCh, Label.pump (ReadOutcome.fail GoError.eof),
        Label.pump (ReadOutcome.data []), Label.pump (ReadOutcome.data [])] init).d.readCh =
      some { id := 0, cap := 64, buf := [], closed := true } ∧
    ∃ e, (run [Label.readCh, Label.pump (ReadOutcome.fail GoError.eof),
        Label.pump (ReadOutcome.data []), Label.pump (ReadOutcome.data [])] init).readFails =
        [e] ∧
      ReadError (run [Label.readCh, Label.pump (ReadOutcome.fail GoError.eof),
        Label.pump (ReadOutcome.data []), Label.pump (ReadOutcome.data [])] init) = some e ∧
      ReadError (run [Label.recv, Label.readCh, Label.pump (ReadOutcome.data [1])]
        (run [Label.readCh, Label.pump (ReadOutcome.fail GoError.eof),
          Label.pump (ReadOutcome.data []), Label.pump (ReadOutcome.data [])] init)) =
        some e :=
  ⟨by decide,
    C3_read_error_is_terminating_error
      [Label.readCh, Label.pump (ReadOutcome.fail GoError.eof),
        Label.pump (ReadOutcome.data []), Label.pump (ReadOutcome.data [])]
      [Label.recv, Label.readCh, Label.pump (ReadOutcome.data [1])]
      { id := 0, cap := 64, buf := [], closed := true } (by decide) rfl⟩

/-- The pump's `select` at a full queue. -/
theorem send_full (o : ReadOutcome) (s : Sys) (hi : Inv s) (r : Report) (c : Chan)
    (hp : s.pump = Pump.sending r) (hc : s.d.readCh = some c) (hfull : c.buf.length = 64) :
    step (Label.pump o) s = { s with pump := Pump.reading } ∧ c.closed = false ∧
    s.d.readErr = none ∧ s.readFails = [] := by
  obtain ⟨hpan, _, hm⟩ := hi
  rw [hp] at hm
  obtain ⟨⟨_, _, _, _, c1, hc1, _, hcap, _, hcd⟩, herr, hf⟩ := hm
  rw [hc] at hc1
  cases hc1
  refine ⟨?_, hcd, herr, hf⟩
  simp [step, hpan, readThreadStep, hp, hc, Chan.trySend, hcd, hcap, hfull]

/-- The pump's `select` at a queue with room. -/
theorem send_room (o : ReadOutcome) (s : Sys) (hi : Inv s) (r : Report) (c : Chan)
    (hp : s.pump = Pump.sending r) (hc : s.d.readCh = some c) (hlt : c.buf.length < 64) :
    (step (Label.pump o) s).d.readCh = some { c with buf := c.buf ++ [r] } ∧
    (step (Label.pump o) s).queue = c.buf ++ [r] := by
  obtain ⟨hpan, _, hm⟩ := hi
  rw [hp] at hm
  obtain ⟨⟨_, _, _, _, c1, hc1, _, hcap, _, hcd⟩, _, _⟩ := hm
  rw [hc] at hc1
  cases hc1
  have hlt2 : c.buf.length < c.cap := by omega
  simp [step, hpan, readThreadStep, hp, hc, Chan.trySend, hcd, hlt2, Sys.queue]

/-- A successful `Read` of the pump on an open file. -/
theorem read_ok (bs : List Nat) (s : Sys) (hi : Inv s) (hp : s.pump = Pump.reading)
    (hopen : s.d.f.closed = false) :
    step (Label.pump (ReadOutcome.data bs)) s =
      { s with d := { s.d with f := { s.d.f with readCalls := s.d.f.readCalls + 1 } },
               pump := Pump.sending (bs.take 64),
               readLog := s.readLog ++ [bs.take 64] } := by
  have hstep : step (Label.pump (ReadOutcome.data bs)) s =
      readThreadStep (ReadOutcome.data bs) s := by simp [step, hi.1]
  rw [hstep, readThreadStep_reading _ s hp]
  simp [hopen]

/-- C4 as stated fails: the read of `[64]` succeeds while the queue holds the 64
reports `[0]`, ..., `[63]`; a consumer receives `[0]` before the pump reaches its
`select`, which then finds room: `[64]` is not discarded but enqueued at the
tail. -/
theorem C4_read_at_full_queue_enqueued :
    (run (fillSched 64) init).pump = Pump.reading ∧
    (run (fillSched 64) init).queue.length = 64 ∧
    (step (Label.pump (ReadOutcome.data [64])) (run (fillSched 64) init)).pump =
      Pump.sending [64] ∧
    (step (Label.pump (ReadOutcome.data [64])) (run (fillSched 64) init)).queue.length = 64 ∧
    (run raceSched init).queue = (List.range 64).tail.map (fun k => [k]) ++ [[64]] ∧
    [64] ∈ (run raceSched init).queue ∧
    (run raceSched init).readLog = (List.range 65).map (fun k => [k]) ∧
    (run raceSched init).recvLog = [[0]] := by
  decide

/-- C4 (amended): drop-newest at the enqueue attempt.  In a reachable state in
which the queue holds 64 undelivered reports, a pump that holds a report it has
just read changes, by its enqueue attempt, nothing but its own control point,
which goes back to the top of the loop.  So when a read of the pump succeeds at
a queue of 64 reports and the pump's enqueue attempt follows before any
receive, the report is read and the pump's next action discards it: the queue holds the same
64 reports in the same order and is open, no error is recorded, nothing was
received, and the action does not depend on any consumer. -/
theorem C4_full_queue_drops_newest (sched : List Label) (bs : List Nat) (c : Chan)
    (o : ReadOutcome)
    (hc : (run sched init).d.readCh = some c)
    (hfull : c.buf.length = 64) :
    (∀ r, (run sched init).pump = Pump.sending r →
      step (Label.pump o) (run sched init) = { run sched init with pump := Pump.reading } ∧
      c.closed = false ∧ (run sched init).d.readErr = none) ∧
    ((run sched init).pump = Pump.reading → (run sched init).d.f.closed = false →
      (step (Label.pump (ReadOutcome.data bs)) (run sched init)).pump =
        Pump.sending (bs.take 64) ∧
      (step (Label.pump (ReadOutcome.data bs)) (run sched init)).readLog =
        (run sched init).readLog ++ [bs.take 64] ∧
      (step (Label.pump (ReadOutcome.data bs)) (run sched init)).d.readCh = some c ∧
      step (Label.pump o) (step (Label.pump (ReadOutcome.data bs)) (run sched init)) =
        { step (Label.pump (ReadOutcome.data bs)) (run sched init) with pump := Pump.reading } ∧
      (step (Label.pump o)
        (step (Label.pump (ReadOutcome.data bs)) (run sched init))).d.readCh = some c ∧
      (step (Label.pump o)
        (step (Label.pump (ReadOutcome.data bs)) (run sched init))).queue = c.buf ∧
      c.closed = false ∧
      (step (Label.pump o)
        (step (Label.pump (ReadOutcome.data bs)) (run sched init))).d.readErr = none ∧
      (step (Label.pump o)
        (step (Label.pump (ReadOutcome.data bs)) (run sched init))).readFails = [] ∧
      (step (Label.pump o)
        (step (Label.pump (ReadOutcome.data bs)) (run sched init))).recvLog =
        (run sched init).recvLog ∧
      (step (Label.pump o)
        (step (Label.pump (ReadOutcome.data bs)) (run sched init))).pump = Pump.reading) := by
  have hi := Inv_reach sched
  constructor
  · intro r hp
    obtain ⟨h1, h2, h3, _⟩ := send_full o _ hi r c hp hc hfull
    exact ⟨h1, h2, h3⟩
  · intro hp hopen
    have hi1 := Inv_step (Label.pump (ReadOutcome.data bs)) _ hi
    have hr := read_ok bs _ hi hp hopen
    have hp1 : (step (Label.pump (ReadOutcome.data bs)) (run sched init)).pump =
        Pump.sending (bs.take 64) := by rw [hr]
    have hc1 : (step (Label.pump (ReadOutcome.data bs)) (run sched init)).d.readCh = some c := by
      rw [hr]; exact hc
    have hl1 : (step (Label.pump (ReadOutcome.data bs)) (run sched init)).readLog =
        (run sched init).readLog ++ [bs.take 64] := by rw [hr]
    have hv1 : (step (Label.pump (ReadOutcome.data bs)) (run sched init)).recvLog =
        (run sched init).recvLog := by rw [hr]
    obtain ⟨h1, h2, h3, h4⟩ := send_full o _ hi1 _ c hp1 hc1 hfull
    refine ⟨hp1, hl1, hc1, h1, ?_, ?_, h2, ?_, ?_, ?_, ?_⟩ <;> rw [h1]
    · exact hc1
    · simp [Sys.queue, hc1]
    · exact h3
    · exact h4
    · exact hv1

/-- The pump has filled the queue with `[0]`, ..., `[63]`, nothing was received,
and the device has `[64]` for the next read. -/
theorem C4_full_queue_drops_newest_witness :
    (run (fillSched 64) init).d.readCh = some fullChan ∧
    fullChan.buf.length = 64 ∧
    (run (fillSched 64) init).pump = Pump.reading ∧
    (run (fillSched 64) init).d.f.closed = false ∧
    (step (Label.pump (ReadOutcome.data [65]))
      (step (Label.pump (ReadOutcome.data [64])) (run (fillSched 64) init))).d.readCh =
      some fullChan :=
  ⟨by decide, by decide, by decide, by decide,
    ((C4_full_queue_drops_newest (fillSched 64) [64] fullChan (ReadOutcome.data [65])
      (by decide) (by decide)).2 (by decide) (by decide)).2.2.2.2.1⟩

/-! ### Before the first `ReadCh` -/

theorem notStarted_step (l : Label) (s : Sys) (hi : Inv s) (h : s.pump = Pump.notStarted)
    (hl : l ≠ Label.readCh) : (step l s).pump = Pump.notStarted := by
  obtain ⟨⟨⟨fc, fw, fr⟩, rs, re, rc⟩, pump, pan, cm, ps, cl, rl, rf, rv⟩ := s
  obtain ⟨hp, hr, hm⟩ := hi
  simp only at hp h
  subst hp h
  cases l with
  | readCh => exact absurd rfl hl
  | write data res => cases fc <;> cases res <;> simp [step, Write, OsFile.Write]
  | close => simp [step, Close]
  | readError => simp [step]
  | recv => simp_all [Inv, step, consumerRecv]
  | pump o => simp [step, readThreadStep]

theorem notStarted_run (sched : List Label) (s : Sys) (hi : Inv s)
    (h : s.pump = Pump.notStarted) (hl : Label.readCh ∉ sched) :
    (run sched s).pump = Pump.notStarted := by
  induction sched generalizing s with
  | nil => exact h
  | cons l ls ih =>
      simp only [List.mem_cons, not_or] at hl
      exact ih _ (Inv_step l s hi) (notStarted_step l s hi h (fun e => hl.1 e.symm)) hl.2

theorem started_step (l : Label) (s : Sys) (hi : Inv s) (h : s.pump ≠ Pump.notStarted) :
    (step l s).pump ≠ Pump.notStarted := by
  obtain ⟨⟨⟨fc, fw, fr⟩, rs, re, rc⟩, pump, pan, cm, ps, cl, rl, rf, rv⟩ := s
  obtain ⟨hp, hr, hm⟩ := hi
  simp only at hp h
  subst hp
  cases l with
  | readCh =>
      cases pump <;> simp_all [Inv, Started, step, ReadCh, readSetupDo, readSetupBody]
  | write data res => cases fc <;> cases res <;> simpa [step, Write, OsFile.Write] using h
  | close => simpa [step, Close] using h
  | readError => simpa [step] using h
  | recv =>
      cases rc with
      | none => simpa [step, consumerRecv] using h
      | some c =>
          obtain ⟨ci, cc, cb, cd⟩ := c
          cases cb <;> cases cd <;> simpa [step, consumerRecv, Chan.recv] using h
  | pump o =>
      cases pump with
      | notStarted => exact absurd rfl h
      | done => simp [step, readThreadStep]
      | reading =>
          simp only [step, Bool.false_eq_true, if_false]
          rw [readThreadStep_reading _ _ rfl]
          cases fc <;> cases o <;> simp
      | failing e => simp [step, readThreadStep]
      | sending r =>
          cases rc with
          | none => simp [step, readThreadStep]
          | some c =>
              obtain ⟨ci, cc, cb, cd⟩ := c
              cases cd <;> by_cases hlt : cb.length < cc <;>
                simp [step, readThreadStep, Chan.trySend, hlt]
      | closing =>
          cases rc with
          | none => simp [step, readThreadStep]
          | some c =>
              obtain ⟨ci, cc, cb, cd⟩ := c
              cases cd <;> simp [step, readThreadStep, Chan.close]

theorem started_run (sched : List Label) (s : Sys) (hi : Inv s)
    (h : s.pump ≠ Pump.notStarted) : (run sched s).pump ≠ Pump.notStarted := by
  induction sched generalizing s with
  | nil => exact h
  | cons l ls ih => exact ih _ (Inv_step l s hi) (started_step l s hi h)

/-- Shape of a reachable state after the first `ReadCh`. -/
theorem Inv_started (s : Sys) (hi : Inv s) (h : s.pump ≠ Pump.notStarted) :
    s.d.readSetup = true ∧ s.chansMade = 1 ∧ s.pumpsStarted = 1 ∧
    ∃ c, s.d.readCh = some c ∧ c.id = 0 ∧ c.cap = 64 ∧ c.buf.length ≤ 64 := by
  obtain ⟨_, _, hm⟩ := hi
  cases hp : s.pump <;> rw [hp] at hm
  · exact absurd hp h
  all_goals
    obtain ⟨⟨h1, h2, h3, _, c, hc, hid, hcap, hlen, _⟩, _⟩ := hm
    exact ⟨h1, h2, h3, c, hc, hid, hcap, hlen⟩

theorem ReadCh_again (t : Sys) (h : t.d.readSetup = true) :
    ReadCh t = (t, t.d.readCh.map Chan.id) := by
  simp [ReadCh, readSetupDo, h]

/-- C5: `ReadCh` starts the pump lazily and exactly once.  In a run without a
`ReadCh` call no pump exists, no queue has been made and no device read has been
issued.  The first `ReadCh` makes one queue of capacity 64, starts one pump and
returns that queue.  However the run continues (more `ReadCh` calls included),
a later `ReadCh` changes nothing and returns that same queue; one queue has been
made and one pump started in total. -/
theorem C5_readch_starts_exactly_once (sched1 sched2 : List Label)
    (h : Label.readCh ∉ sched1) :
    ((run sched1 init).pump = Pump.notStarted ∧
      (run sched1 init).pumpsStarted = 0 ∧
      (run sched1 init).chansMade = 0 ∧
      (run sched1 init).d.f.readCalls = 0 ∧
      (run sched1 init).d.readCh = none) ∧
    ((ReadCh (run sched1 init)).2 = some 0 ∧
      (ReadCh (run sched1 init)).1.d.readCh = some (Chan.make 0 64) ∧
      (ReadCh (run sched1 init)).1.pump = Pump.reading ∧
      (ReadCh (run sched1 init)).1.pumpsStarted = 1 ∧
      (ReadCh (run sched1 init)).1.chansMade = 1 ∧
      (ReadCh (run sched1 init)).1.d.f.readCalls = 0) ∧
    (ReadCh (run sched2 (ReadCh (run sched1 init)).1) =
        (run sched2 (ReadCh (run sched1 init)).1, (ReadCh (run sched1 init)).2) ∧
      (run sched2 (ReadCh (run sched1 init)).1).pumpsStarted = 1 ∧
      (run sched2 (ReadCh (run sched1 init)).1).chansMade = 1 ∧
      ∃ c, (run sched2 (ReadCh (run sched1 init)).1).d.readCh = some c ∧
        c.id = 0 ∧ c.cap = 64) := by
  have hi := Inv_reach sched1
  have hns := notStarted_run sched1 init Inv_init rfl h
  have hi0 := hi
  obtain ⟨hpan, hrc, hm⟩ := hi
  rw [hns] at hm
  obtain ⟨m1, m2, m3, m4, m5, m6, m7, m8, m9⟩ := hm
  have hfirst : (ReadCh (run sched1 init)).1 = step Label.readCh (run sched1 init) := by
    simp [step, hpan]
  have hi1 : Inv (ReadCh (run sched1 init)).1 := by
    rw [hfirst]; exact Inv_step _ _ hi0
  have hi2 := Inv_run sched2 _ hi1
  have hrs : (ReadCh (run sched1 init)).1.d.readSetup = true := by
    simp [ReadCh, readSetupDo, m1]
  have hret : (ReadCh (run sched1 init)).2 = some 0 := by
    simp [ReadCh, readSetupDo, readSetupBody, m1, m4, Chan.make]
  have hne : (run sched2 (ReadCh (run sched1 init)).1).pump ≠ Pump.notStarted := by
    apply started_run sched2 _ hi1
    simp [ReadCh, readSetupDo, readSetupBody, m1]
  refine ⟨⟨hns, m5, m4, ?_, m2⟩, ?_, ?_⟩
  · rw [hrc, m8, m7]; rfl
  · simp [ReadCh, readSetupDo, readSetupBody, m1, m4, m5, Chan.make]
    rw [hrc, m8, m7]; rfl
  · obtain ⟨k1, k2, k3, c, kc, kid, kcap, _⟩ := Inv_started _ hi2 hne
    refine ⟨?_, k3, k2, c, kc, kid, kcap⟩
    rw [hret, ReadCh_again _ k1, kc]
    simp [kid]

/-- A run that writes, receives and lets a pump action pass before the first
`ReadCh`, and calls `ReadCh` twice more afterwards. -/
theorem C5_readch_starts_exactly_once_witness :
    Label.readCh ∉ [Label.write [0, 1] none, Label.recv, Label.pump (ReadOutcome.data [1])] ∧
    ReadCh (run [Label.readCh, Label.pump (ReadOutcome.data [5]), Label.readCh]
        (ReadCh (run [Label.write [0, 1] none, Label.recv,
          Label.pump (ReadOutcome.data [1])] init)).1) =
      (run [Label.readCh, Label.pump (ReadOutcome.data [5]), Label.readCh]
        (ReadCh (run [Label.write [0, 1] none, Label.recv,
          Label.pump (ReadOutcome.data [1])] init)).1,
       (ReadCh (run [Label.write [0, 1] none, Label.recv,
          Label.pump (ReadOutcome.data [1])] init)).2) :=
  ⟨by decide,
    (C5_readch_starts_exactly_once
      [Label.write [0, 1] none, Label.recv, Label.pump (ReadOutcome.data [1])]
      [Label.readCh, Label.pump (ReadOutcome.data [5]), Label.readCh] (by decide)).2.2.1⟩

/-- C6: `Write` issues one write on the device file with exactly the given
bytes as payload and changes nothing else (queue, error slot, pump, every
counter); it returns the error of that device write unchanged, so it returns
no error exactly when the device write returned none: what the operating
system answered on an open file, the closed-file error on a closed one. -/
theorem C6_write_is_one_device_write (data : List Nat) (res : Option GoError) (s : Sys) :
    (Write data res s).1 =
      { s with d := { s.d with f := { s.d.f with written := s.d.f.written ++ [data] } } } ∧
    (Write data res s).1.d.f.written = s.d.f.written ++ [data] ∧
    (s.d.f.Write data res).1.written = s.d.f.written ++ [data] ∧
    (Write data res s).2 = (s.d.f.Write data res).2.2 ∧
    ((Write data res s).2 = none ↔ (s.d.f.Write data res).2.2 = none) ∧
    (s.d.f.closed = false → (Write data res s).2 = res) ∧
    (s.d.f.closed = true → (Write data res s).2 = some GoError.closed) ∧
    (Write data res s).1.d.readCh = s.d.readCh ∧
    (Write data res s).1.d.readErr = s.d.readErr ∧
    (Write data res s).1.d.readSetup = s.d.readSetup ∧
    (Write data res s).1.pump = s.pump := by
  cases hc : s.d.f.closed <;> cases res <;> simp [Write, OsFile.Write, hc]

/-- A write that the operating system rejects on an open file, and a write on a
closed file. -/
theorem C6_write_is_one_device_write_witness :
    (init.d.f.closed = false ∧
      (Write [0, 1, 2] (some (GoError.errno 5)) init).2 = some (GoError.errno 5)) ∧
    ((Close init).d.f.closed = true ∧
      (Write [0, 1, 2] none (Close init)).2 = some GoError.closed) :=
  ⟨⟨rfl, (C6_write_is_one_device_write [0, 1, 2] (some (GoError.errno 5)) init).2.2.2.2.2.1 rfl⟩,
    ⟨rfl, (C6_write_is_one_device_write [0, 1, 2] none (Close init)).2.2.2.2.2.2.1 rfl⟩⟩

/-- C7: when the pump's `Read` into its fresh 64-byte buffer succeeds with `n`
bytes, the report the pump goes on to offer to the queue is `buf[:n]`: it has
length `n`, `n` is at most 64, and it is exactly the first `n` bytes the device
supplied (so its first byte is the device's first byte), while the buffer itself
keeps its 64 bytes.  If the queue is open and has room, the pump's next action
appends exactly this report at the tail.  Over a loopback device, writing
`[0, 1, 2]` and receiving from the queue yields `[0, 1, 2]`, and the queue is
open afterwards. -/
theorem C7_report_is_first_n_bytes (s : Sys) (o o2 : ReadOutcome) (f1 : OsFile)
    (buf1 : List Nat) (n : Nat)
    (hpan : s.panicked = false) (hp : s.pump = Pump.reading)
    (hread : s.d.f.Read (List.replicate 64 0) o = (f1, buf1, n, none)) :
    (step (Label.pump o) s).pump = Pump.sending (buf1.take n) ∧
    (buf1.take n).length = n ∧ n ≤ 64 ∧ buf1.length = 64 ∧
    (∃ bs, o = ReadOutcome.data bs ∧ n = min bs.length 64 ∧ buf1.take n = bs.take n ∧
      (buf1.take n).head? = bs.head?) ∧
    (∀ c, s.d.readCh = some c → c.closed = false → c.buf.length < c.cap →
      (step (Label.pump o2) (step (Label.pump o) s)).d.readCh =
        some { c with buf := c.buf ++ [buf1.take n] }) ∧
    ((consumerRecv (loopbackRun [Label.readCh, Label.write [0, 1, 2] none,
        Label.pump (ReadOutcome.data []), Label.pump (ReadOutcome.data [])] (init, [])).1).2 =
        RecvResult.value [0, 1, 2] ∧
      (consumerRecv (loopbackRun [Label.readCh, Label.write [0, 1, 2] none,
        Label.pump (ReadOutcome.data []), Label.pump (ReadOutcome.data [])]
          (init, [])).1).1.d.readCh =
        some { id := 0, cap := 64, buf := [], closed := false }) := by
  have h64 : (List.replicate 64 (0 : Nat)).length = 64 := List.length_replicate 64 0
  have hstep : step (Label.pump o) s = readThreadStep o s := by simp [step, hpan]
  rw [hstep, readThreadStep_reading o s hp]
  unfold OsFile.Read at hread
  by_cases hc : s.d.f.closed = true
  · simp [hc] at hread
  · cases o with
    | fail e => simp [hc] at hread
    | data bs =>
        simp only [hc, if_false, Bool.false_eq_true, Prod.mk.injEq] at hread
        obtain ⟨_, hb, hn, _⟩ := hread
        have hrep : buf1.take n = bs.take 64 := by
          rw [← hb, ← hn]; exact read_report bs
        rw [h64] at hn
        have hlen : buf1.length = 64 := by
          rw [← hb, List.length_append, List.length_take, List.length_drop, h64]
          omega
        have hbn : bs.take n = bs.take 64 := by
          rw [← hn]
          rcases Nat.le_total bs.length 64 with h | h
          · rw [Nat.min_eq_left h, List.take_of_length_le (le_refl _),
              List.take_of_length_le h]
          · rw [Nat.min_eq_right h]
        refine ⟨by simp [hc, hrep], ?_, by omega, hlen, ⟨bs, rfl, hn.symm, ?_, by rw [hrep]; cases bs <;> simp⟩,
          ?_, by decide, by decide⟩
        · rw [List.length_take]; omega
        · rw [hrep, hbn]
        · intro c hcc hcl hroom
          simp [hc, step, hpan, readThreadStep, hcc, Chan.trySend, hcl, hroom, hrep]

/-- The device has the three bytes `[0, 1, 2]` for the pump's first read. -/
theorem C7_report_is_first_n_bytes_witness :
    (run [Label.readCh] init).panicked = false ∧
    (run [Label.readCh] init).pump = Pump.reading ∧
    (run [Label.readCh] init).d.f.Read (List.replicate 64 0) (ReadOutcome.data [0, 1, 2]) =
      ({ closed := false, written := [], readCalls := 1 },
        [0, 1, 2] ++ List.replicate 61 0, 3, none) ∧
    (step (Label.pump (ReadOutcome.data [0, 1, 2])) (run [Label.readCh] init)).pump =
      Pump.sending (([0, 1, 2] ++ List.replicate 61 0).take 3) :=
  ⟨by decide, by decide, by decide,
    (C7_report_is_first_n_bytes (run [Label.readCh] init) (ReadOutcome.data [0, 1, 2])
      (ReadOutcome.data []) { closed := false, written := [], readCalls := 1 }
      ([0, 1, 2] ++ List.replicate 61 0) 3 (by decide) (by decide) (by decide)).1⟩

/-- C8 as stated fails: after the first read has failed with end-of-file and the
pump has stored the error, the queue is still open (the deferred `close` has not
run yet) and `ReadError` already returns the error. -/
theorem C8_open_queue_with_error :
    ¬ ((∀ c, (run [Label.readCh, Label.pump (ReadOutcome.fail GoError.eof),
          Label.pump (ReadOutcome.data [])] init).d.readCh = some c → c.closed = false) →
        ReadError (run [Label.readCh, Label.pump (ReadOutcome.fail GoError.eof),
          Label.pump (ReadOutcome.data [])] init) = none) := by
  intro h
  have h1 : (run [Label.readCh, Label.pump (ReadOutcome.fail GoError.eof),
      Label.pump (ReadOutcome.data [])] init).d.readCh =
      some { id := 0, cap := 64, buf := [], closed := false } := by decide
  have h2 := h (fun c hc => by rw [h1] at hc; cases hc; rfl)
  revert h2
  decide

/-- C8 (amended): `ReadError` returns none in every reachable state in which the
pump has not yet stored the error of a failed read: in particular whenever no
device read has failed so far, and before `ReadCh` was ever called, whatever
number of successful reads, dropped reports, `Write` calls and receives the run
contains. -/
theorem C8_read_error_none_until_recorded (sched : List Label) :
    ((run sched init).pump ≠ Pump.closing → (run sched init).pump ≠ Pump.done →
      ReadError (run sched init) = none) ∧
    ((run sched init).readFails = [] → ReadError (run sched init) = none) ∧
    (Label.readCh ∉ sched → ReadError (run sched init) = none) := by
  have hi := Inv_reach sched
  have key : (run sched init).pump ≠ Pump.closing → (run sched init).pump ≠ Pump.done →
      ReadError (run sched init) = none := by
    intro h1 h2
    obtain ⟨_, _, hm⟩ := hi
    unfold ReadError
    cases hp : (run sched init).pump <;> rw [hp] at hm
    · exact hm.2.2.1
    · exact hm.2.1
    · exact hm.2.1
    · exact hm.2.1
    · exact absurd hp h1
    · exact absurd hp h2
  refine ⟨key, ?_, ?_⟩
  · intro hf
    have hns : ¬ (run sched init).pump.stopped = true := by
      rw [Inv_stopped _ hi]; simpa using hf
    apply key <;> intro hp <;> rw [hp] at hns <;> simp [Pump.stopped] at hns
  · intro hl
    have hns := notStarted_run sched init Inv_init rfl hl
    apply key <;> rw [hns] <;> simp

/-- A run with two successful reads, one of them received, a write, and no
failed read. -/
theorem C8_read_error_none_until_recorded_witness :
    (run [Label.readCh, Label.pump (ReadOutcome.data [1, 2]), Label.pump (ReadOutcome.data []),
        Label.write [0, 9] none, Label.recv, Label.pump (ReadOutcome.data [3])] init).readFails =
      [] ∧
    ReadError (run [Label.readCh, Label.pump (ReadOutcome.data [1, 2]),
        Label.pump (ReadOutcome.data []), Label.write [0, 9] none, Label.recv,
        Label.pump (ReadOutcome.data [3])] init) = none :=
  ⟨by decide,
    (C8_read_error_none_until_recorded [Label.readCh, Label.pump (ReadOutcome.data [1, 2]),
      Label.pump (ReadOutcome.data []), Label.write [0, 9] none, Label.recv,
      Label.pump (ReadOutcome.data [3])]).2.1 (by decide)⟩

/-! ### After `Close` -/

theorem AfterClose_step (n : Nat) (l : Label) (s : Sys) (hi : Inv s) (h : AfterClose n s) :
    AfterClose n (step l s) := by
  obtain ⟨⟨⟨fc, fw, fr⟩, rs, re, rc⟩, pump, pan, cm, ps, cl, rl, rf, rv⟩ := s
  obtain ⟨hp, hr, hm⟩ := hi
  obtain ⟨hfc, hq⟩ := h
  simp only at hp hr hfc
  subst hp hfc
  cases l with
  | readCh =>
      cases pump <;>
        simp_all [AfterClose, Inv, Started, step, ReadCh, readSetupDo, readSetupBody]
      all_goals
        obtain ⟨h1, h2⟩ := hq
        subst h1
        simp at h2
        omega
  | write data res => cases res <;> simpa [AfterClose, step, Write, OsFile.Write] using hq
  | close => simpa [AfterClose, step, Close, OsFile.Close] using hq
  | readError => simpa [AfterClose, step] using hq
  | recv =>
      cases rc with
      | none => simpa [AfterClose, step, consumerRecv] using hq
      | some c =>
          obtain ⟨ci, cc, cb, cd⟩ := c
          cases cb <;> cases cd <;> simpa [AfterClose, step, consumerRecv, Chan.recv] using hq
  | pump o =>
      cases pump with
      | notStarted => simp at hq
      | done => simpa [AfterClose, step, readThreadStep] using hq
      | reading =>
          simp only [step, Bool.false_eq_true, if_false]
          rw [readThreadStep_reading _ _ rfl]
          simp_all [AfterClose]
      | failing e => simp_all [AfterClose, Inv, step, readThreadStep]
      | sending r =>
          cases rc with
          | none => simp_all [Inv, Started, step, readThreadStep]
          | some c =>
              obtain ⟨ci, cc, cb, cd⟩ := c
              cases cd <;> by_cases hlt : cb.length < cc <;>
                simp only [step, readThreadStep, Chan.trySend, hlt, if_true, if_false,
                  Bool.false_eq_true] <;>
                simp_all [AfterClose, Inv, Started]
      | closing =>
          cases rc with
          | none => simp_all [Inv, Started, step, readThreadStep]
          | some c =>
              obtain ⟨ci, cc, cb, cd⟩ := c
              cases cd <;> simp_all [AfterClose, Inv, Started, step, readThreadStep, Chan.close]
              obtain ⟨h1, h2⟩ := hq
              subst h1
              simp at h2
              omega

theorem AfterClose_run (n : Nat) (rest : List Label) (s : Sys) (hi : Inv s)
    (h : AfterClose n s) : AfterClose n (run rest s) := by
  induction rest generalizing s with
  | nil => exact h
  | cons l ls ih => exact ih _ (Inv_step l s hi) (AfterClose_step n l s hi h)

/-- C9: `Close` sets the device file to closed and changes nothing else: the
queue (so a consumer's next receive yields what it would have yielded), the
error slot, the pump's control point and the close count are the same.  If the
pump is in its loop when `Close` is called, then in every continuation it issues
at most one more read; once it has taken the actions left up to its return (the
pending enqueue if any, the read, the store of the error, the deferred close)
exactly one read was issued after `Close`, that read failed, its error is the
one in the error slot, and the queue has been closed once. -/
theorem C9_close_only_releases_file (sched rest : List Label) :
    (Close (run sched init) =
        { run sched init with
          d := { (run sched init).d with f := { (run sched init).d.f with closed := true } } } ∧
      (Close (run sched init)).d.readCh = (run sched init).d.readCh ∧
      (Close (run sched init)).d.readErr = (run sched init).d.readErr ∧
      (Close (run sched init)).pump = (run sched init).pump ∧
      (Close (run sched init)).closes = (run sched init).closes ∧
      (consumerRecv (Close (run sched init))).2 = (consumerRecv (run sched init)).2) ∧
    (((run sched init).pump = Pump.reading ∨ ∃ r, (run sched init).pump = Pump.sending r) →
      (run rest (Close (run sched init))).d.f.readCalls ≤ (run sched init).d.f.readCalls + 1 ∧
      ((run sched init).pump.rank ≤ pumpSteps rest →
        (run rest (Close (run sched init))).pump = Pump.done ∧
        (run rest (Close (run sched init))).d.f.readCalls =
          (run sched init).d.f.readCalls + 1 ∧
        (run rest (Close (run sched init))).readFails = [GoError.closed] ∧
        (run rest (Close (run sched init))).d.readErr = some GoError.closed ∧
        (run rest (Close (run sched init))).closes = 1 ∧
        ∃ c, (run rest (Close (run sched init))).d.readCh = some c ∧ c.closed = true)) := by
  have hi := Inv_reach sched
  have hrecv : (consumerRecv (Close (run sched init))).2 = (consumerRecv (run sched init)).2 := by
    simp only [consumerRecv, Close]
    cases (run sched init).d.readCh with
    | none => rfl
    | some c =>
        obtain ⟨ci, cc, cb, cd⟩ := c
        cases cb <;> cases cd <;> simp [Chan.recv]
  refine ⟨⟨rfl, rfl, rfl, rfl, rfl, hrecv⟩, ?_⟩
  intro hrun
  have hcs : Close (run sched init) = step Label.close (run sched init) := by
    simp [step, hi.1]
  have hic : Inv (Close (run sched init)) := by rw [hcs]; exact Inv_step _ _ hi
  have hac : AfterClose (run sched init).d.f.readCalls (Close (run sched init)) := by
    rcases hrun with h | ⟨r, h⟩ <;> simp [AfterClose, Close, OsFile.Close, h]
  have hns : (Close (run sched init)).pump ≠ Pump.notStarted := by
    rcases hrun with h | ⟨r, h⟩ <;> simp [Close, h]
  have hac2 := AfterClose_run _ rest _ hic hac
  have hi2 := Inv_run rest _ hic
  constructor
  · obtain ⟨_, hq⟩ := hac2
    cases hp : (run rest (Close (run sched init))).pump <;> rw [hp] at hq <;>
      first
      | exact absurd hq id
      | omega
  · intro hk
    obtain ⟨hd, hr⟩ := Doomed_run rest _ hic ⟨hns, Or.inl hac.1⟩
    have hdone := rank_zero_done _ hd.1 (by
      rw [hr]
      show (run sched init).pump.rank - pumpSteps rest = 0
      omega)
    obtain ⟨hc, e, c, he1, he2, he3, he4⟩ := Inv_done _ hi2 hdone
    obtain ⟨_, hq⟩ := hac2
    rw [hdone] at hq
    obtain ⟨hq1, hq2⟩ := hq
    rw [hq1] at he1
    simp at he1
    subst he1
    exact ⟨hdone, hq2, hq1, he2, hc, c, he3, he4⟩

/-- The pump has delivered one report and is back at its read when the device
is closed; it then takes three actions, with a receive in between. -/
theorem C9_close_only_releases_file_witness :
    ((run [Label.readCh, Label.pump (ReadOutcome.data [1]),
        Label.pump (ReadOutcome.data [])] init).pump = Pump.reading ∨
      ∃ r, (run [Label.readCh, Label.pump (ReadOutcome.data [1]),
        Label.pump (ReadOutcome.data [])] init).pump = Pump.sending r) ∧
    (run [Label.readCh, Label.pump (ReadOutcome.data [1]),
        Label.pump (ReadOutcome.data [])] init).pump.rank ≤
      pumpSteps [Label.pump (ReadOutcome.data [5]), Label.recv,
        Label.pump (ReadOutcome.data []), Label.pump (ReadOutcome.data [])] ∧
    (run [Label.pump (ReadOutcome.data [5]), Label.recv, Label.pump (ReadOutcome.data []),
        Label.pump (ReadOutcome.data [])]
      (Close (run [Label.readCh, Label.pump (ReadOutcome.data [1]),
        Label.pump (ReadOutcome.data [])] init))).pump = Pump.done :=
  ⟨Or.inl (by decide), by decide,
    (((C9_close_only_releases_file
      [Label.readCh, Label.pump (ReadOutcome.data [1]), Label.pump (ReadOutcome.data [])]
      [Label.pump (ReadOutcome.data [5]), Label.recv, Label.pump (ReadOutcome.data []),
        Label.pump (ReadOutcome.data [])]).2 (Or.inl (by decide))).2 (by decide)).1⟩

/-! ### Runs without a full queue -/

theorem Lossless_step (l : Label) (s : Sys) (hi : Inv s) (h : Lossless s)
    (hroom : l.isPump = true → hasRoom s = true) : Lossless (step l s) := by
  obtain ⟨⟨⟨fc, fw, fr⟩, rs, re, rc⟩, pump, pan, cm, ps, cl, rl, rf, rv⟩ := s
  obtain ⟨hp, hr, hm⟩ := hi
  simp only at hp hr
  subst hp
  cases l with
  | readCh =>
      cases pump <;>
        simp_all [Lossless, Sys.queue, Pump.pending, Inv, Started, step, ReadCh, readSetupDo,
          readSetupBody, Chan.make]
  | write data res =>
      cases fc <;> cases res <;> simpa [Lossless, Sys.queue, step, Write, OsFile.Write] using h
  | close => simpa [Lossless, Sys.queue, step, Close, OsFile.Close] using h
  | readError => simpa [Lossless, step] using h
  | recv =>
      cases rc with
      | none => simpa [Lossless, Sys.queue, step, consumerRecv] using h
      | some c =>
          obtain ⟨ci, cc, cb, cd⟩ := c
          cases cb <;> cases cd <;>
            simpa [Lossless, Sys.queue, step, consumerRecv, Chan.recv] using h
  | pump o =>
      cases pump with
      | notStarted => simpa [Lossless, step, readThreadStep] using h
      | done => simpa [Lossless, step, readThreadStep] using h
      | reading =>
          simp only [step, Bool.false_eq_true, if_false]
          rw [readThreadStep_reading _ _ rfl]
          cases fc <;> cases o <;> simp_all [Lossless, Sys.queue, Pump.pending]
      | failing e =>
          simpa [Lossless, Sys.queue, Pump.pending, step, readThreadStep] using h
      | sending r =>
          cases rc with
          | none => simp_all [Inv, Started, step, readThreadStep]
          | some c =>
              obtain ⟨ci, cc, cb, cd⟩ := c
              have hlt : cb.length < 64 := by simpa [hasRoom] using hroom rfl
              cases cd <;>
                simp_all [Lossless, Sys.queue, Pump.pending, Inv, Started, step, readThreadStep,
                  Chan.trySend]
      | closing =>
          cases rc with
          | none => simp_all [Inv, Started, step, readThreadStep]
          | some c =>
              obtain ⟨ci, cc, cb, cd⟩ := c
              cases cd <;> simp_all [Lossless, Sys.queue, Pump.pending, Inv, Started, step,
                readThreadStep, Chan.close]

theorem Lossless_run (sched : List Label) (s : Sys) (hi : Inv s) (h : Lossless s)
    (hroom : ∀ k, k < sched.length → pumpAt sched k = true →
      hasRoom (run (sched.take k) s) = true) :
    Lossless (run sched s) := by
  induction sched generalizing s with
  | nil => exact h
  | cons l ls ih =>
      have h0 : l.isPump = true → hasRoom s = true := by
        intro hl
        have := hroom 0 (by simp) (by simpa [pumpAt] using hl)
        simpa [run] using this
      apply ih _ (Inv_step l s hi) (Lossless_step l s hi h h0)
      intro k hk hpk
      have := hroom (k + 1) (by simpa using hk) (by simpa [pumpAt] using hpk)
      simpa [run_cons] using this

/-- The log of successful reads only grows. -/
theorem readLog_step (l : Label) (s : Sys) (hi : Inv s) :
    s.readLog.length ≤ (step l s).readLog.length := by
  obtain ⟨⟨⟨fc, fw, fr⟩, rs, re, rc⟩, pump, pan, cm, ps, cl, rl, rf, rv⟩ := s
  obtain ⟨hp, hr, hm⟩ := hi
  simp only at hp hr
  subst hp
  cases l with
  | readCh => cases rs <;> simp [step, ReadCh, readSetupDo, readSetupBody]
  | write data res => cases fc <;> cases res <;> simp [step, Write, OsFile.Write]
  | close => simp [step, Close]
  | readError => simp [step]
  | recv =>
      cases rc with
      | none => simp [step, consumerRecv]
      | some c =>
          obtain ⟨ci, cc, cb, cd⟩ := c
          cases cb <;> cases cd <;> simp [step, consumerRecv, Chan.recv]
  | pump o =>
      cases pump with
      | notStarted => simp [step, readThreadStep]
      | done => simp [step, readThreadStep]
      | reading =>
          simp only [step, Bool.false_eq_true, if_false]
          rw [readThreadStep_reading _ _ rfl]
          cases fc <;> cases o <;> simp
      | failing e => simp [step, readThreadStep]
      | sending r =>
          cases rc with
          | none => simp [step, readThreadStep]
          | some c =>
              obtain ⟨ci, cc, cb, cd⟩ := c
              cases cd <;> by_cases hlt : cb.length < cc <;>
                simp [step, readThreadStep, Chan.trySend, hlt]
      | closing =>
          cases rc with
          | none => simp [step, readThreadStep]
          | some c =>
              obtain ⟨ci, cc, cb, cd⟩ := c
              cases cd <;> simp [step, readThreadStep, Chan.close]

theorem readLog_run (sched : List Label) (s : Sys) (hi : Inv s) :
    s.readLog.length ≤ (run sched s).readLog.length := by
  induction sched generalizing s with
  | nil => exact le_refl _
  | cons l ls ih => exact (readLog_step l s hi).trans (ih _ (Inv_step l s hi))

/-- With at most 64 reports read so far, a lossless state has room. -/
theorem hasRoom_of_few (s : Sys) (h : Lossless s) (hle : s.readLog.length ≤ 64) :
    hasRoom s = true := by
  unfold hasRoom
  unfold Lossless Sys.queue at h
  cases hp : s.pump <;> cases hc : s.d.readCh <;> simp
  rw [hp, hc] at h
  have := congrArg List.length h
  simp [Pump.pending] at this
  omega

theorem Lossless_run_few (sched : List Label) (s : Sys) (hi : Inv s) (h : Lossless s)
    (hle : (run sched s).readLog.length ≤ 64) : Lossless (run sched s) := by
  induction sched generalizing s with
  | nil => exact h
  | cons l ls ih =>
      have h1 : (step l s).readLog.length ≤ 64 :=
        (readLog_run ls _ (Inv_step l s hi)).trans hle
      have h0 : s.readLog.length ≤ 64 := (readLog_step l s hi).trans h1
      exact ih _ (Inv_step l s hi) (Lossless_step l s hi h (fun _ => hasRoom_of_few s h h0)) hle

/-- While the pump holds a report, the actions of the other context leave it
holding that report and do not lengthen the queue. -/
theorem quiet_step (l : Label) (s : Sys) (hi : Inv s) (r : Report)
    (hp : s.pump = Pump.sending r) (hl : l.isPump = false) :
    (step l s).pump = Pump.sending r ∧ (step l s).queue.length ≤ s.queue.length := by
  obtain ⟨⟨⟨fc, fw, fr⟩, rs, re, rc⟩, pump, pan, cm, ps, cl, rl, rf, rv⟩ := s
  obtain ⟨hpan, hr, hm⟩ := hi
  simp only at hpan hp
  subst hpan hp
  cases l with
  | readCh => simp_all [Inv, Started, step, ReadCh, readSetupDo]
  | write data res => cases fc <;> cases res <;> simp [Sys.queue, step, Write, OsFile.Write]
  | close => simp [Sys.queue, step, Close]
  | readError => simp [step]
  | recv =>
      cases rc with
      | none => simp [step, consumerRecv]
      | some c =>
          obtain ⟨ci, cc, cb, cd⟩ := c
          cases cb <;> cases cd <;> simp [Sys.queue, step, consumerRecv, Chan.recv]
  | pump o => simp [Label.isPump] at hl

theorem quiet_run (mid : List Label) (s : Sys) (hi : Inv s) (r : Report)
    (hp : s.pump = Pump.sending r) (hmid : pumpSteps mid = 0) :
    (run mid s).pump = Pump.sending r ∧ (run mid s).queue.length ≤ s.queue.length := by
  induction mid generalizing s with
  | nil => exact ⟨hp, le_refl _⟩
  | cons l ls ih =>
      have hl : l.isPump = false := by
        cases h : l.isPump
        · rfl
        · simp [pumpSteps, List.countP_cons, h] at hmid
      have hls : pumpSteps ls = 0 := by
        simpa [pumpSteps, List.countP_cons, hl] using hmid
      obtain ⟨h1, h2⟩ := quiet_step l s hi r hp hl
      obtain ⟨h3, h4⟩ := ih _ (Inv_step l s hi) h1 hls
      exact ⟨h3, h4.trans h2⟩

/-- C10: a report is lost only at a full queue.  In a reachable state in which
the pump holds a report it has just read and the queue holds fewer than 64
reports, the pump's next action appends this report at the tail of the queue;
and when a read succeeds while the queue holds fewer than 64 reports, then
whatever the other context does before the pump's next action, that action
appends the report at the tail.  Hence in every run in which the queue has room
at each enqueue attempt (each action the pump takes while it holds a report),
and in particular in every run with at most 64 successful reads, the reports
received,
those still queued and the one the pump holds are together exactly the reports
read, in read order; so a consumer that finds the queue closed and empty has
received every report read, in read order. -/
theorem C10_lost_only_when_full (sched : List Label) (o : ReadOutcome) :
    (∀ r c, (run sched init).pump = Pump.sending r → (run sched init).d.readCh = some c →
      c.buf.length < 64 →
      (step (Label.pump o) (run sched init)).d.readCh = some { c with buf := c.buf ++ [r] } ∧
      (step (Label.pump o) (run sched init)).queue = c.buf ++ [r]) ∧
    (∀ bs mid, (run sched init).pump = Pump.reading → (run sched init).d.f.closed = false →
      (run sched init).queue.length < 64 → pumpSteps mid = 0 →
      (step (Label.pump o)
        (run mid (step (Label.pump (ReadOutcome.data bs)) (run sched init)))).queue =
        (run mid (step (Label.pump (ReadOutcome.data bs)) (run sched init))).queue ++
          [bs.take 64]) ∧
    (((∀ k, k < sched.length → pumpAt sched k = true →
          hasRoom (run (sched.take k) init) = true) ∨
        (run sched init).readLog.length ≤ 64) →
      (run sched init).recvLog ++ (run sched init).queue ++ (run sched init).pump.pending =
        (run sched init).readLog ∧
      ((consumerRecv (run sched init)).2 = RecvResult.closed →
        (run sched init).recvLog = (run sched init).readLog)) := by
  have hi := Inv_reach sched
  refine ⟨?_, ?_, ?_⟩
  · intro r c hp hc hlt
    exact send_room o _ hi r c hp hc hlt
  · intro bs mid hp hopen hlen hmid
    have hi1 := Inv_step (Label.pump (ReadOutcome.data bs)) _ hi
    have hr := read_ok bs _ hi hp hopen
    have hp1 : (step (Label.pump (ReadOutcome.data bs)) (run sched init)).pump =
        Pump.sending (bs.take 64) := by rw [hr]
    have hq1 : (step (Label.pump (ReadOutcome.data bs)) (run sched init)).queue =
        (run sched init).queue := by rw [hr]; rfl
    obtain ⟨hp2, hq2⟩ := quiet_run mid _ hi1 _ hp1 hmid
    have hi2 := Inv_run mid _ hi1
    obtain ⟨_, _, _, c, hc, _, _, _⟩ := Inv_started _ hi2 (by rw [hp2]; simp)
    have hqc : (run mid (step (Label.pump (ReadOutcome.data bs)) (run sched init))).queue =
        c.buf := by simp [Sys.queue, hc]
    rw [hqc]
    refine (send_room o _ hi2 _ c hp2 hc ?_).2
    rw [← hqc]
    rw [hq1] at hq2
    omega
  · intro hyp
    have h0 : Lossless init := by simp [Lossless, init, Sys.queue, Pump.pending]
    have hl : Lossless (run sched init) := by
      rcases hyp with h | h
      · exact Lossless_run sched init Inv_init h0 h
      · exact Lossless_run_few sched init Inv_init h0 h
    refine ⟨hl, ?_⟩
    intro hcl
    unfold Lossless Sys.queue at hl
    unfold consumerRecv at hcl
    cases hc : (run sched init).d.readCh with
    | none => rw [hc] at hcl; simp at hcl
    | some c =>
        obtain ⟨ci, cc, cb, cd⟩ := c
        rw [hc] at hcl hl
        cases cb with
        | cons v rest => simp [Chan.recv] at hcl
        | nil =>
            cases cd with
            | false => simp [Chan.recv] at hcl
            | true =>
                have hd : (run sched init).pump = Pump.done := by
                  by_contra hne
                  have := ((Inv_closes _ hi).2 hne).2 _ hc
                  simp at this
                rw [hd] at hl
                simpa [Pump.pending] using hl

/-- The queue is full when `[64]` is read, but a consumer receives before the
pump's enqueue attempt: every enqueue attempt of the run finds room, although
65 reports are read and the state right after the read of `[64]` has none.  In
the second run the consumer finds the queue closed after two reports. -/
theorem C10_lost_only_when_full_witness :
    ((∀ k, k < raceSched.length → pumpAt raceSched k = true →
        hasRoom (run (raceSched.take k) init) = true) ∧
      hasRoom (run (raceSched.take 130) init) = false ∧
      ¬ (run raceSched init).readLog.length ≤ 64 ∧
      (run raceSched init).recvLog ++ (run raceSched init).queue ++
        (run raceSched init).pump.pending = (run raceSched init).readLog) ∧
    ((∀ k, k < drainSched.length → pumpAt drainSched k = true →
        hasRoom (run (drainSched.take k) init) = true) ∧
      (consumerRecv (run drainSched init)).2 = RecvResult.closed ∧
      (run drainSched init).recvLog = (run drainSched init).readLog) :=
  ⟨⟨by decide, by decide, by decide,
      ((C10_lost_only_when_full raceSched (ReadOutcome.data [])).2.2
        (Or.inl (by decide))).1⟩,
    ⟨by decide, by decide,
      ((C10_lost_only_when_full drainSched (ReadOutcome.data [])).2.2
        (Or.inl (by decide))).2 (by decide)⟩⟩

end Hidg
